import Mathlib

/-!
Verification development for the user-management UI repository.

The definitions below are a shallow embedding of the repository's
payload-normalization and validation pipeline:

* `src/services/user.service.ts` — `createUser`, `updateUser`, `patchUser`,
  `getAllUsers` (payload transformation before / after transport);
* `src/pages/user.tsx` — `validateForm`, `handleSubmit` (form cleaning),
  `handleImageUpload`;
* `src/pages/home.tsx` — `filteredUsers` (search view-model).

JavaScript runtime values that can appear in a JSON payload are modelled by
the inductive type `JVal` (plus an `undefined` marker for a missing property,
which JavaScript property reads produce).  A request payload — a plain JS
object — is modelled as an association list `Payload` whose lookup takes the
first matching key, mirroring JS property access; objects built by the code
never carry duplicate keys.

`JSON.parse` is a platform builtin, not repository code, so the service
normalization is parameterized by a function `parse : String → Option JVal`
(`none` models a thrown `SyntaxError`).  Concrete theorems instantiate it
with `jsonParseLit`, a table of the literals they mention.
-/

/-- A JSON-like JavaScript runtime value, plus `undefined` for the result of a
missing property read.  Mirrors what `JSON.parse(JSON.stringify(x))` can
produce in `createUser` (`user.service.ts` line 139). -/
inductive JVal where
  | null
  | undefined
  | bool (b : Bool)
  | num (n : Int)
  | str (s : String)
  | arr (elems : List JVal)
  | obj (fields : List (String × JVal))

/-- JavaScript truthiness of a `JVal` (`if (x)`).  `NaN` is not modelled;
no claim depends on it. -/
def truthy : JVal → Bool
  | .null => false
  | .undefined => false
  | .bool b => b
  | .num n => n != 0
  | .str s => s != ""
  | .arr _ => true
  | .obj _ => true

/-- JS `typeof x === 'object'`.  In JavaScript this is `true` for `null` and
for arrays as well as plain objects. -/
def typeofObject : JVal → Bool
  | .null => true
  | .arr _ => true
  | .obj _ => true
  | _ => false

/-- JS `typeof x === 'string'`. -/
def typeofString : JVal → Bool
  | .str _ => true
  | _ => false

/-- JavaScript property read `v[k]`: `undefined` when the property is missing
or the value is not an object (matching `(x as UserDirectory).name` on a
value without a `name` property). -/
def getProp (v : JVal) (k : String) : JVal :=
  match v with
  | .obj fields => match fields.lookup k with
    | some x => x
    | none => .undefined
  | _ => .undefined

/-- A request payload: a JS object as an ordered key/value list. -/
abbrev Payload := List (String × JVal)

/-- Property read on a payload; the first matching key wins, `undefined` when
absent (JS semantics). -/
def getField : Payload → String → JVal
  | [], _ => .undefined
  | (k1, v1) :: t, k => if k1 == k then v1 else getField t k

/-- Does the payload have the key at all (`k in obj`)? -/
def hasKey : Payload → String → Bool
  | [], _ => false
  | (k1, _) :: t, k => k1 == k || hasKey t k

/-- Property write `obj[k] = v`: updates the first occurrence in place,
appends when the key is absent (JS insertion-order semantics). -/
def setField : Payload → String → JVal → Payload
  | [], k, v => [(k, v)]
  | (k1, v1) :: t, k, v => if k1 == k then (k, v) :: t else (k1, v1) :: setField t k v

/-- Property delete `delete obj[k]`. -/
def delField : Payload → String → Payload
  | [], _ => []
  | (k1, v1) :: t, k => if k1 == k then delField t k else (k1, v1) :: delField t k

/-- The values removed by `createUser`'s empty-field sweep
(`user.service.ts` lines 166-171): `'' || null || undefined`. -/
def isEmptyMarker : JVal → Bool
  | .str s => s == ""
  | .null => true
  | .undefined => true
  | _ => false

/-- The sweep `Object.keys(x).forEach(... delete ...)` in `createUser`
(`user.service.ts` lines 166-171): drop every field whose value is the
empty string, `null` or `undefined`. -/
def removeEmptyFields : Payload → Payload
  | [] => []
  | (k, v) :: t =>
    if isEmptyMarker v then removeEmptyFields t else (k, v) :: removeEmptyFields t

/-- Whether `hay` starts with `needle`, on character lists. -/
def startsWithChars : List Char → List Char → Bool
  | _, [] => true
  | [], _ :: _ => false
  | a :: as, b :: bs => a == b && startsWithChars as bs

/-- JS `String.prototype.startsWith`. -/
def strStartsWith (s p : String) : Bool := startsWithChars s.data p.data

/-- Does `needle` occur as a contiguous run in `hay`? -/
def strIncludesAux (needle : List Char) : List Char → Bool
  | [] => startsWithChars [] needle
  | c :: rest => startsWithChars (c :: rest) needle || strIncludesAux needle rest

/-- JS `String.prototype.includes`. -/
def strIncludes (s sub : String) : Bool := strIncludesAux sub.data s.data

/-- The whitespace characters relevant to JS `String.prototype.trim` on the
inputs this UI handles (space, tab, line feed, carriage return, vertical
tab, form feed). -/
def wsChar (c : Char) : Bool :=
  c == ' ' || c == '\t' || c == '\n' || c == '\r' || c == '\x0b' || c == '\x0c'

/-- Strip leading and trailing whitespace from a character list. -/
def trimChars (cs : List Char) : List Char :=
  ((cs.dropWhile wsChar).reverse.dropWhile wsChar).reverse

/-- JS `String.prototype.trim`. -/
def jsTrim (s : String) : String := String.mk (trimChars s.data)

/-- The creation-form draft state (`UserFormData` plus `initialFormState`
in `src/pages/user.tsx` lines 4-37): every text field starts as the empty
string; `metadata` entries come from text inputs, so values are strings. -/
structure UserFormData where
  uid : String
  name : String := ""
  given_name : String := ""
  middle_name : String := ""
  family_name : String := ""
  nickname : String := ""
  email : String := ""
  phone_number : String := ""
  comment : String := ""
  picture : String := ""
  directory : String := ""
  metadata : List (String × String) := []
  tags : List String := []

/-- The four client-side validation failures (§7 of the spec). -/
inductive ValidationError where
  | missingUid
  | uidAllDigits
  | uidHasWhitespace
  | invalidEmail
  deriving DecidableEq

/-- Form validation `validateForm` in `src/pages/user.tsx` lines 101-123:
1. `!formData.uid || formData.uid.trim() === ''` → missing uid;
2. `!formData.uid.match(/[^0-9]/)` → all digits;
3. `formData.uid.includes(' ')` → whitespace (the literal space character);
4. `formData.email && !formData.email.includes('@')` → invalid email.
Returns `none` when the form passes. -/
def validateForm (f : UserFormData) : Option ValidationError :=
  if f.uid == "" || jsTrim f.uid == "" then some .missingUid
  else if !(f.uid.data.any (fun c => !c.isDigit)) then some .uidAllDigits
  else if strIncludes f.uid " " then some .uidHasWhitespace
  else if f.email != "" && !(strIncludes f.email "@") then some .invalidEmail
  else none

/-- The per-field cleaning step `if (x && x.trim()) cleaned.k = x.trim()`
of `handleSubmit` (`src/pages/user.tsx` lines 166-182). -/
def addIfTrimmed (p : Payload) (k : String) (x : String) : Payload :=
  if x != "" && jsTrim x != "" then p ++ [(k, JVal.str (jsTrim x))] else p

/-- Conditionally append a field (the tags / metadata steps of
`handleSubmit`). -/
def addIfCond (p : Payload) (c : Prop) [Decidable c] (k : String) (v : JVal) : Payload :=
  if c then p ++ [(k, v)] else p

/-- The cleaned payload built by `handleSubmit` before calling
`UserService.createUser` (`src/pages/user.tsx` lines 162-192): `uid` is
always sent trimmed; each free-text field is sent trimmed when its trimmed
value is non-empty; `tags` when non-empty; `metadata` when it has at least
one key. -/
def cleanPayload (f : UserFormData) : Payload :=
  let p0 : Payload := [("uid", JVal.str (jsTrim f.uid))]
  let p1 := addIfTrimmed p0 "name" f.name
  let p2 := addIfTrimmed p1 "given_name" f.given_name
  let p3 := addIfTrimmed p2 "middle_name" f.middle_name
  let p4 := addIfTrimmed p3 "family_name" f.family_name
  let p5 := addIfTrimmed p4 "nickname" f.nickname
  let p6 := addIfTrimmed p5 "email" f.email
  let p7 := addIfTrimmed p6 "phone_number" f.phone_number
  let p8 := addIfTrimmed p7 "comment" f.comment
  let p9 := addIfTrimmed p8 "directory" f.directory
  let p10 := addIfTrimmed p9 "picture" f.picture
  let p11 := addIfCond p10 (0 < f.tags.length) "tags" (JVal.arr (f.tags.map JVal.str))
  let p12 := addIfCond p11 (0 < f.metadata.length) "metadata"
    (JVal.obj (f.metadata.map (fun kv => (kv.1, JVal.str kv.2))))
  p12

/-- The submit handler `handleSubmit` (`src/pages/user.tsx` lines 153-217): when validation
fails the handler returns before any network call; otherwise the cleaned
payload is handed to `UserService.createUser`.  `Except.error e` models the
blocked submission (no network call), `Except.ok p` the payload submitted. -/
def handleSubmit (f : UserFormData) : Except ValidationError Payload :=
  match validateForm f with
  | some e => .error e
  | none => .ok (cleanPayload f)

/-- The directory step of `createUser` (`user.service.ts` lines 142-146):
a truthy `object`-typed directory is replaced by its `name` property. -/
def dirStep (p : Payload) : Payload :=
  if truthy (getField p "directory") && typeofObject (getField p "directory") then
    setField p "directory" (getProp (getField p "directory") "name")
  else p

/-- The metadata step of `createUser` (`user.service.ts` lines 148-154):
a truthy string metadata is JSON-parsed; on success the parsed value
replaces it, on failure the field is deleted silently. -/
def metaStep (parse : String → Option JVal) (p : Payload) : Payload :=
  match getField p "metadata" with
  | .str m =>
    if m != "" then
      match parse m with
      | some j => setField p "metadata" j
      | none => delField p "metadata"
    else p
  | _ => p

/-- The picture step of `createUser` (`user.service.ts` lines 156-163):
a truthy string picture is kept when it starts with `data:image`, kept when
it starts with `http`, and deleted otherwise. -/
def picStep (p : Payload) : Payload :=
  match getField p "picture" with
  | .str pic =>
    if pic != "" then
      if strStartsWith pic "data:image" then p
      else if !strStartsWith pic "http" then delField p "picture"
      else p
    else p
  | _ => p

/-- The payload normalization performed by `UserService.createUser`
(`user.service.ts` lines 138-181) on `userDataToSend` before POSTing it:
directory reduction, metadata parsing, picture filtering, then the
empty-field sweep.  The initial `JSON.parse(JSON.stringify(userData))` is
the identity on the JSON-representable payloads modelled here. -/
def createUser (parse : String → Option JVal) (userData : Payload) : Payload :=
  removeEmptyFields (picStep (metaStep parse (dirStep userData)))

/-- The payload transformation performed by `UserService.updateUser`
(`user.service.ts` lines 198-205) before PUTting `userData`: a non-empty
plain-string directory is wrapped into a structured `{ name }` object;
everything else, a structured directory included, is left unchanged. -/
def updateUser (userData : Payload) : Payload :=
  match getField userData "directory" with
  | .str s =>
    if s != "" then setField userData "directory" (JVal.obj [("name", JVal.str s)])
    else userData
  | _ => userData

/-- The payload transformation performed by `UserService.patchUser`
(`user.service.ts` lines 210-217) before PATCHing `userData`; the body is
identical to `updateUser`'s. -/
def patchUser (userData : Payload) : Payload :=
  match getField userData "directory" with
  | .str s =>
    if s != "" then setField userData "directory" (JVal.obj [("name", JVal.str s)])
    else userData
  | _ => userData

/-- The `UserListResponse` envelope (`user.service.ts` lines 97-102).  The
fields are kept as raw decoded values so that the falsy cases of `data`
can be stated. -/
structure UserListResponse where
  data : JVal
  start : JVal
  endIdx : JVal
  count : JVal

/-- The unwrapping done by `UserService.getAllUsers`
(`user.service.ts` lines 115-119): `return response.data || []`. -/
def getAllUsers (r : UserListResponse) : JVal :=
  if truthy r.data then r.data else JVal.arr []

/-- A file offered to the upload input (`e.target.files[0]`): its declared
media type and size in bytes. -/
structure UploadFile where
  type : String
  size : Nat

/-- The component state touched by `handleImageUpload`. -/
structure FormState where
  formData : UserFormData
  error : Option String
  imagePreview : Option String

/-- The upload handler `handleImageUpload` (`src/pages/user.tsx` lines 125-150):
`file.type.match('image.*')` (i.e. the type contains `image`) must succeed,
then the size must be at most `5 * 1024 * 1024` bytes; a rejected file only
sets the error message.  The asynchronous `FileReader` outcome is passed in
as `res` (`Except.ok base64` for `onload`, `Except.error ()` for
`onerror`). -/
def handleImageUpload (file : UploadFile) (res : Except Unit String) (st : FormState) : FormState :=
  if !strIncludes file.type "image" then
    { st with error := some "Please select an image file" }
  else if 5 * 1024 * 1024 < file.size then
    { st with error := some "Image size should be less than 5MB" }
  else
    match res with
    | .ok base64 =>
      { st with imagePreview := some base64,
                formData := { st.formData with picture := base64 } }
    | .error _ => { st with error := some "Failed to read the image file" }

/-- A listed user as consumed by the search filter: `uid` is required,
`name` and `email` optional (`home.tsx`). -/
structure ListedUser where
  uid : String
  name : Option String := none
  email : Option String := none

/-- JS `String.prototype.toLowerCase`: characterwise lowering. -/
def jsToLower (s : String) : String := String.mk (s.data.map Char.toLower)

/-- The filter predicate of `filteredUsers` (`home.tsx` lines 48-55 and the
identical predicate in `user.tsx`): the lowercased query must be a
substring of the lowercased `uid`, or of the lowercased `name` / `email`
when present (`user.name?.toLowerCase().includes(q) || false`). -/
def userMatches (q : String) (u : ListedUser) : Bool :=
  strIncludes (jsToLower u.uid) (jsToLower q) ||
  (match u.name with
   | some n => strIncludes (jsToLower n) (jsToLower q)
   | none => false) ||
  (match u.email with
   | some e => strIncludes (jsToLower e) (jsToLower q)
   | none => false)

/-- The filtered view `filteredUsers = users.filter(...)` (`home.tsx` lines 48-55). -/
def filteredUsers (users : List ListedUser) (q : String) : List ListedUser :=
  users.filter (userMatches q)

/-- The spec's description of a substring occurrence, used to compare the
filter against §4.3 of the spec: the needle occurs contiguously in the
haystack. -/
def substrOf (hay needle : String) : Prop :=
  ∃ l r, hay.data = l ++ needle.data ++ r

/-- The spec's filter predicate (§4.3), stated in the spec's own terms for
comparison with `userMatches`: the lowercase query is a substring of the
lowercased `uid`, or of the lowercased `name` when present, or of the
lowercased `email` when present; absent optional fields never match. -/
def specMatches (q : String) (u : ListedUser) : Prop :=
  substrOf (jsToLower u.uid) (jsToLower q) ∨
  (∃ n, u.name = some n ∧ substrOf (jsToLower n) (jsToLower q)) ∨
  (∃ e, u.email = some e ∧ substrOf (jsToLower e) (jsToLower q))

/-- A table for `JSON.parse` restricted to the literals appearing in the concrete
theorems below: `JSON.parse("\x7b\x7d")` yields the empty object and
`JSON.parse("not json")` throws.  Used to instantiate the `parse`
parameter of `createUser`. -/
def jsonParseLit : String → Option JVal :=
  fun s => if s = "\x7b\x7d" then some (JVal.obj []) else none

/-! ### Basic lemmas about payload field operations -/

theorem getField_setField_self (p : Payload) (k : String) (v : JVal) :
    getField (setField p k v) k = v := by
  induction p with
  | nil => simp [setField, getField]
  | cons kv t ih =>
    obtain ⟨k1, v1⟩ := kv
    by_cases h : (k1 == k) = true
    · simp [setField, h, getField]
    · simp [setField, h, getField, ih]

theorem getField_setField_ne (p : Payload) (k' : String) (v : JVal) (k : String)
    (h : k' ≠ k) : getField (setField p k' v) k = getField p k := by
  have hbeq : (k' == k) = false := by simpa using h
  induction p with
  | nil => simp [setField, getField, hbeq]
  | cons kv t ih =>
    obtain ⟨k1, v1⟩ := kv
    by_cases h1 : (k1 == k') = true
    · have hk1 : k1 = k' := by simpa using h1
      subst hk1
      simp [setField, getField, hbeq]
    · simp [setField, h1, getField, ih]

theorem getField_delField_self (p : Payload) (k : String) :
    getField (delField p k) k = JVal.undefined := by
  induction p with
  | nil => simp [delField, getField]
  | cons kv t ih =>
    obtain ⟨k1, v1⟩ := kv
    by_cases h : (k1 == k) = true
    · simp [delField, h, ih]
    · simp [delField, h, getField, ih]

theorem getField_delField_ne (p : Payload) (k' k : String) (h : k' ≠ k) :
    getField (delField p k') k = getField p k := by
  have hbeq : (k' == k) = false := by simpa using h
  induction p with
  | nil => simp [delField]
  | cons kv t ih =>
    obtain ⟨k1, v1⟩ := kv
    by_cases h1 : (k1 == k') = true
    · have hk1 : k1 = k' := by simpa using h1
      subst hk1
      simp [delField, getField, hbeq, ih]
    · simp [delField, h1, getField, ih]

theorem hasKey_delField_self (p : Payload) (k : String) :
    hasKey (delField p k) k = false := by
  induction p with
  | nil => simp [delField, hasKey]
  | cons kv t ih =>
    obtain ⟨k1, v1⟩ := kv
    by_cases h : (k1 == k) = true
    · simp [delField, h, ih]
    · simp [delField, h, hasKey, ih]

theorem getField_of_hasKey_false (p : Payload) (k : String)
    (h : hasKey p k = false) : getField p k = JVal.undefined := by
  induction p with
  | nil => simp [getField]
  | cons kv t ih =>
    obtain ⟨k1, v1⟩ := kv
    simp only [hasKey, Bool.or_eq_false_iff] at h
    simp [getField, h.1, ih h.2]

theorem hasKey_removeEmptyFields_false (p : Payload) (k : String)
    (h : hasKey p k = false) : hasKey (removeEmptyFields p) k = false := by
  induction p with
  | nil => simp [removeEmptyFields, hasKey]
  | cons kv t ih =>
    obtain ⟨k1, v1⟩ := kv
    simp only [hasKey, Bool.or_eq_false_iff] at h
    by_cases hm : isEmptyMarker v1 = true
    · simp [removeEmptyFields, hm, ih h.2]
    · simp [removeEmptyFields, hm, hasKey, h.1, ih h.2]

theorem getField_removeEmptyFields_keep (p : Payload) (k : String)
    (h : isEmptyMarker (getField p k) = false) :
    getField (removeEmptyFields p) k = getField p k := by
  induction p with
  | nil => simp [removeEmptyFields]
  | cons kv t ih =>
    obtain ⟨k1, v1⟩ := kv
    by_cases h1 : (k1 == k) = true
    · have hv : getField ((k1, v1) :: t) k = v1 := by simp [getField, h1]
      rw [hv] at h
      simp [removeEmptyFields, h, getField, h1]
    · have hv : getField ((k1, v1) :: t) k = getField t k := by simp [getField, h1]
      rw [hv] at h
      by_cases hm : isEmptyMarker v1 = true
      · simp [removeEmptyFields, hm, hv, ih h]
      · simp [removeEmptyFields, hm, getField, h1, hv, ih h]

theorem mem_removeEmptyFields (p : Payload) (e : String × JVal)
    (h : e ∈ removeEmptyFields p) : e ∈ p := by
  induction p with
  | nil => simp [removeEmptyFields] at h
  | cons kv t ih =>
    obtain ⟨k1, v1⟩ := kv
    by_cases hm : isEmptyMarker v1 = true
    · rw [show removeEmptyFields ((k1, v1) :: t) = removeEmptyFields t from by
        simp [removeEmptyFields, hm]] at h
      exact List.mem_cons_of_mem _ (ih h)
    · rw [show removeEmptyFields ((k1, v1) :: t) = (k1, v1) :: removeEmptyFields t from by
        simp [removeEmptyFields, hm]] at h
      rcases List.mem_cons.mp h with rfl | h
      · exact List.mem_cons_self _ _
      · exact List.mem_cons_of_mem _ (ih h)

theorem mem_delField (p : Payload) (k : String) (e : String × JVal)
    (h : e ∈ delField p k) : e ∈ p := by
  induction p with
  | nil => simp [delField] at h
  | cons kv t ih =>
    obtain ⟨k1, v1⟩ := kv
    by_cases h1 : (k1 == k) = true
    · rw [show delField ((k1, v1) :: t) k = delField t k from by simp [delField, h1]] at h
      exact List.mem_cons_of_mem _ (ih h)
    · rw [show delField ((k1, v1) :: t) k = (k1, v1) :: delField t k from by
        simp [delField, h1]] at h
      rcases List.mem_cons.mp h with rfl | h
      · exact List.mem_cons_self _ _
      · exact List.mem_cons_of_mem _ (ih h)

/-! ### Lemmas about appended fields -/

theorem getField_append_single_ne (p : Payload) (k' k : String) (v : JVal)
    (h : k' ≠ k) : getField (p ++ [(k', v)]) k = getField p k := by
  have hbeq : (k' == k) = false := by simpa using h
  induction p with
  | nil => simp [getField, hbeq]
  | cons kv t ih =>
    obtain ⟨k1, v1⟩ := kv
    simp [getField, ih]

theorem getField_append_single_self (p : Payload) (k : String) (v : JVal)
    (h : hasKey p k = false) : getField (p ++ [(k, v)]) k = v := by
  induction p with
  | nil => simp [getField]
  | cons kv t ih =>
    obtain ⟨k1, v1⟩ := kv
    simp only [hasKey, Bool.or_eq_false_iff] at h
    simp [getField, h.1, ih h.2]

theorem hasKey_append_single_ne (p : Payload) (k' k : String) (v : JVal)
    (h : k' ≠ k) : hasKey (p ++ [(k', v)]) k = hasKey p k := by
  have hbeq : (k' == k) = false := by simpa using h
  induction p with
  | nil => simp [hasKey, hbeq]
  | cons kv t ih =>
    obtain ⟨k1, v1⟩ := kv
    simp [hasKey, ih, Bool.or_assoc]

theorem getField_addIfTrimmed_ne (p : Payload) (k' : String) (x : String) (k : String)
    (h : k' ≠ k) : getField (addIfTrimmed p k' x) k = getField p k := by
  unfold addIfTrimmed
  split
  · exact getField_append_single_ne p k' k _ h
  · rfl

theorem hasKey_addIfTrimmed_ne (p : Payload) (k' : String) (x : String) (k : String)
    (h : k' ≠ k) : hasKey (addIfTrimmed p k' x) k = hasKey p k := by
  unfold addIfTrimmed
  split
  · exact hasKey_append_single_ne p k' k _ h
  · rfl

theorem getField_addIfCond_ne (p : Payload) (c : Prop) [Decidable c]
    (k' k : String) (v : JVal) (h : k' ≠ k) :
    getField (addIfCond p c k' v) k = getField p k := by
  unfold addIfCond
  split
  · exact getField_append_single_ne p k' k _ h
  · rfl

theorem mem_addIfTrimmed (p : Payload) (k : String) (x : String) (e : String × JVal)
    (h : e ∈ addIfTrimmed p k x) :
    e ∈ p ∨ (e = (k, JVal.str (jsTrim x)) ∧ jsTrim x ≠ "") := by
  by_cases hc : (x != "" && jsTrim x != "") = true
  · rw [show addIfTrimmed p k x = p ++ [(k, JVal.str (jsTrim x))] from by
      simp [addIfTrimmed, hc]] at h
    rcases List.mem_append.mp h with h | h
    · exact Or.inl h
    · exact Or.inr ⟨List.mem_singleton.mp h,
        by simpa using ((Bool.and_eq_true _ _).mp hc).2⟩
  · rw [show addIfTrimmed p k x = p from by simp [addIfTrimmed, hc]] at h
    exact Or.inl h

theorem mem_addIfCond (p : Payload) (c : Prop) [Decidable c] (k : String) (v : JVal)
    (e : String × JVal) (h : e ∈ addIfCond p c k v) : e ∈ p ∨ e = (k, v) := by
  unfold addIfCond at h
  split at h
  · rcases List.mem_append.mp h with h | h
    · exact Or.inl h
    · exact Or.inr (List.mem_singleton.mp h)
  · exact Or.inl h

/-! ### Lemmas about the three `createUser` normalization steps -/

theorem getField_dirStep_ne (p : Payload) (k : String) (h : k ≠ "directory") :
    getField (dirStep p) k = getField p k := by
  unfold dirStep
  split
  · exact getField_setField_ne p "directory" _ k (Ne.symm h)
  · rfl

theorem getField_metaStep_ne (parse : String → Option JVal) (p : Payload) (k : String)
    (h : k ≠ "metadata") : getField (metaStep parse p) k = getField p k := by
  unfold metaStep
  split
  · split
    · split
      · exact getField_setField_ne p "metadata" _ k (Ne.symm h)
      · exact getField_delField_ne p "metadata" k (Ne.symm h)
    · rfl
  · rfl

theorem getField_picStep_ne (p : Payload) (k : String) (h : k ≠ "picture") :
    getField (picStep p) k = getField p k := by
  unfold picStep
  split
  · split
    · split
      · rfl
      · split
        · exact getField_delField_ne p "picture" k (Ne.symm h)
        · rfl
    · rfl
  · rfl

theorem mem_picStep (p : Payload) (e : String × JVal) (h : e ∈ picStep p) : e ∈ p := by
  unfold picStep at h
  split at h
  · split at h
    · split at h
      · exact h
      · split at h
        · exact mem_delField p "picture" e h
        · exact h
    · exact h
  · exact h

theorem hasKey_mem (p : Payload) (k : String) :
    hasKey p k = true ↔ ∃ v, (k, v) ∈ p := by
  induction p with
  | nil => simp [hasKey]
  | cons kv t ih =>
    obtain ⟨k1, v1⟩ := kv
    constructor
    · intro h
      rcases (by simpa [hasKey] using h : k1 = k ∨ hasKey t k = true) with h1 | h1
      · subst h1
        exact ⟨v1, List.mem_cons_self _ _⟩
      · obtain ⟨v, hv⟩ := ih.mp h1
        exact ⟨v, List.mem_cons_of_mem _ hv⟩
    · rintro ⟨v, hv⟩
      rcases List.mem_cons.mp hv with heq | hv2
      · have hk : k1 = k := by
          simpa using (congrArg Prod.fst heq).symm
        simp [hasKey, hk]
      · simp [hasKey, ih.mpr ⟨v, hv2⟩]

theorem hasKey_picStep_false (p : Payload) (k : String) (h : hasKey p k = false) :
    hasKey (picStep p) k = false := by
  by_contra hc
  have hk : hasKey (picStep p) k = true := by
    cases hh : hasKey (picStep p) k
    · exact absurd hh hc
    · rfl
  obtain ⟨v, hv⟩ := (hasKey_mem _ _).mp hk
  have htrue : hasKey p k = true := (hasKey_mem _ _).mpr ⟨v, mem_picStep p (k, v) hv⟩
  rw [h] at htrue
  exact Bool.false_ne_true htrue

theorem dirStep_eq_self (p : Payload)
    (h : typeofObject (getField p "directory") = false) : dirStep p = p := by
  unfold dirStep
  simp [h]

theorem metaStep_eq_self (parse : String → Option JVal) (p : Payload)
    (h : typeofString (getField p "metadata") = false) : metaStep parse p = p := by
  unfold metaStep
  split
  · rename_i m heq
    rw [heq] at h
    simp [typeofString] at h
  · rfl

/-! ### Correctness of the string helpers -/

theorem startsWithChars_nil_right (l : List Char) : startsWithChars l [] = true := by
  cases l <;> rfl

theorem startsWithChars_iff (needle hay : List Char) :
    startsWithChars hay needle = true ↔ ∃ r, hay = needle ++ r := by
  induction needle generalizing hay with
  | nil => simp [startsWithChars_nil_right]
  | cons b bs ih =>
    cases hay with
    | nil => simp [startsWithChars]
    | cons a as =>
      constructor
      · intro h
        obtain ⟨hab, hrest⟩ : a = b ∧ startsWithChars as bs = true := by
          simpa [startsWithChars] using h
        obtain ⟨r, hr⟩ := (ih as).mp hrest
        exact ⟨r, by simp [hab, hr]⟩
      · rintro ⟨r, hr⟩
        injection hr with h1 h2
        simp [startsWithChars, h1, (ih as).mpr ⟨r, h2⟩]

theorem strIncludesAux_iff (needle hay : List Char) :
    strIncludesAux needle hay = true ↔ ∃ l r, hay = l ++ needle ++ r := by
  induction hay with
  | nil =>
    simp only [strIncludesAux, startsWithChars_iff]
    constructor
    · rintro ⟨r, hr⟩
      exact ⟨[], r, by simpa using hr⟩
    · rintro ⟨l, r, hr⟩
      have h0 : l = [] ∧ needle = [] ∧ r = [] := by simpa using hr.symm
      exact ⟨[], by simp [h0.2.1]⟩
  | cons c rest ih =>
    constructor
    · intro h
      rcases (Bool.or_eq_true _ _).mp (by simpa [strIncludesAux] using h) with h1 | h1
      · obtain ⟨r, hr⟩ := (startsWithChars_iff _ _).mp h1
        exact ⟨[], r, by simpa using hr⟩
      · obtain ⟨l, r, hr⟩ := ih.mp h1
        exact ⟨c :: l, r, by simp [hr]⟩
    · rintro ⟨l, r, hr⟩
      cases l with
      | nil =>
        have : startsWithChars (c :: rest) needle = true :=
          (startsWithChars_iff _ _).mpr ⟨r, by simpa using hr⟩
        simp [strIncludesAux, this]
      | cons x l' =>
        have hx : c = x ∧ rest = l' ++ needle ++ r := by
          constructor
          · simpa using congrArg (fun t => t.head?) hr
          · simpa using congrArg (fun t => t.tail) hr
        have : strIncludesAux needle rest = true := ih.mpr ⟨l', r, hx.2⟩
        simp [strIncludesAux, this]

theorem strIncludes_iff (s sub : String) :
    strIncludes s sub = true ↔ ∃ l r, s.data = l ++ sub.data ++ r :=
  strIncludesAux_iff sub.data s.data

theorem strIncludes_empty_right (s : String) : strIncludes s "" = true := by
  show strIncludesAux [] s.data = true
  cases s.data with
  | nil => rfl
  | cons c rest => simp [strIncludesAux, startsWithChars_nil_right]

theorem startsWithChars_ne_nil (hay : List Char) (b : Char) (bs : List Char)
    (h : startsWithChars hay (b :: bs) = true) : hay ≠ [] := by
  intro hnil
  subst hnil
  simp [startsWithChars] at h

/-! ### Lemmas about `jsTrim` -/

theorem dropWhile_head_false (p : Char → Bool) (l : List Char) (a : Char)
    (t : List Char) (h : l.dropWhile p = a :: t) : p a = false := by
  induction l with
  | nil => simp [List.dropWhile] at h
  | cons b bs ih =>
    by_cases hb : p b = true
    · rw [List.dropWhile_cons_of_pos (by simpa using hb)] at h
      exact ih h
    · rw [List.dropWhile_cons_of_neg (by simpa using hb)] at h
      injection h with h1 h2
      subst h1
      simpa using hb

theorem all_ws_dropWhile_nil (l : List Char)
    (h : ∀ c ∈ l.dropWhile wsChar, wsChar c = true) : l.dropWhile wsChar = [] := by
  cases hd : l.dropWhile wsChar with
  | nil => rfl
  | cons a t =>
    have hfalse : wsChar a = false := dropWhile_head_false wsChar l a t hd
    have htrue : wsChar a = true := h a (by rw [hd]; exact List.mem_cons_self _ _)
    rw [hfalse] at htrue
    exact absurd htrue (by simp)

theorem trimChars_eq_nil_down (cs : List Char) (h : trimChars (trimChars cs) = []) :
    trimChars cs = [] := by
  have h1 : (((trimChars cs).dropWhile wsChar).reverse.dropWhile wsChar) = [] := by
    simpa [trimChars] using congrArg List.reverse h
  have h2 : ∀ c ∈ ((trimChars cs).dropWhile wsChar).reverse, wsChar c := by
    simpa using List.dropWhile_eq_nil_iff.mp h1
  have h3 : (trimChars cs).dropWhile wsChar = [] :=
    all_ws_dropWhile_nil _ (fun c hc => h2 c (List.mem_reverse.mpr hc))
  have h4 : ∀ c ∈ trimChars cs, wsChar c := List.dropWhile_eq_nil_iff.mp h3
  have h5 : ∀ c ∈ (cs.dropWhile wsChar).reverse.dropWhile wsChar, wsChar c := by
    intro c hc
    exact h4 c (by simpa [trimChars] using List.mem_reverse.mpr hc)
  have h6 : (cs.dropWhile wsChar).reverse.dropWhile wsChar = [] := by
    cases hd : (cs.dropWhile wsChar).reverse.dropWhile wsChar with
    | nil => rfl
    | cons a t =>
      have hfalse : wsChar a = false := dropWhile_head_false wsChar _ a t hd
      have htrue : wsChar a = true := by
        have := h5 a (by rw [hd]; exact List.mem_cons_self _ _)
        simpa using this
      rw [hfalse] at htrue
      exact absurd htrue (by simp)
  simp [trimChars, h6]

theorem jsTrim_idem_ne (x : String) (h : jsTrim x ≠ "") : jsTrim (jsTrim x) ≠ "" := by
  intro hc
  apply h
  have hdata : trimChars (trimChars x.data) = [] := congrArg String.data hc
  have : trimChars x.data = [] := trimChars_eq_nil_down x.data hdata
  show String.mk (trimChars x.data) = ""
  rw [this]

theorem dropWhile_all_false (p : Char → Bool) (l : List Char)
    (h : ∀ c ∈ l, p c = false) : l.dropWhile p = l := by
  cases l with
  | nil => rfl
  | cons b bs =>
    rw [List.dropWhile_cons_of_neg (by simp [h b (List.mem_cons_self _ _)])]

theorem jsTrim_eq_self_of_no_ws (s : String) (h : ∀ c ∈ s.data, wsChar c = false) :
    jsTrim s = s := by
  have h1 : s.data.dropWhile wsChar = s.data := dropWhile_all_false wsChar s.data h
  have h2 : s.data.reverse.dropWhile wsChar = s.data.reverse :=
    dropWhile_all_false wsChar _ (fun c hc => h c (List.mem_reverse.mp hc))
  show String.mk (trimChars s.data) = s
  rw [trimChars, h1, h2, List.reverse_reverse]

theorem digit_not_ws (c : Char) (h : c.isDigit = true) : wsChar c = false := by
  by_contra hc
  have hws : wsChar c = true := by
    cases hv : wsChar c
    · exact absurd hv hc
    · rfl
  have hd : ((((c = ' ' ∨ c = '\t') ∨ c = '\n') ∨ c = '\r') ∨ c = '\x0b') ∨ c = '\x0c' := by
    simpa [wsChar] using hws
  rcases hd with ((((h1 | h1) | h1) | h1) | h1) | h1 <;>
    (subst h1; exact absurd h (by decide))

/-! ### Shape of the payload produced by the form's `handleSubmit` -/

theorem getField_cases (p : Payload) (k : String) :
    getField p k = JVal.undefined ∨ (k, getField p k) ∈ p := by
  induction p with
  | nil => exact Or.inl rfl
  | cons kv t ih =>
    obtain ⟨k1, v1⟩ := kv
    by_cases h1 : (k1 == k) = true
    · have hk : k1 = k := by simpa using h1
      subst hk
      right
      simp [getField]
    · rcases ih with h | h
      · left
        simpa [getField, h1] using h
      · right
        rw [show getField ((k1, v1) :: t) k = getField t k from by simp [getField, h1]]
        exact List.mem_cons_of_mem _ h

theorem mem_cleanPayload (f : UserFormData) (e : String × JVal)
    (h : e ∈ cleanPayload f) :
    e = ("uid", JVal.str (jsTrim f.uid)) ∨
    (∃ k x, e = (k, JVal.str (jsTrim x)) ∧ jsTrim x ≠ "" ∧ k ≠ "metadata") ∨
    e = ("tags", JVal.arr (f.tags.map JVal.str)) ∨
    e = ("metadata", JVal.obj (f.metadata.map (fun kv => (kv.1, JVal.str kv.2)))) := by
  simp only [cleanPayload] at h
  rcases mem_addIfCond _ _ _ _ _ h with h | rfl
  · rcases mem_addIfCond _ _ _ _ _ h with h | rfl
    · rcases mem_addIfTrimmed _ _ _ _ h with h | ⟨rfl, hx⟩
      · rcases mem_addIfTrimmed _ _ _ _ h with h | ⟨rfl, hx⟩
        · rcases mem_addIfTrimmed _ _ _ _ h with h | ⟨rfl, hx⟩
          · rcases mem_addIfTrimmed _ _ _ _ h with h | ⟨rfl, hx⟩
            · rcases mem_addIfTrimmed _ _ _ _ h with h | ⟨rfl, hx⟩
              · rcases mem_addIfTrimmed _ _ _ _ h with h | ⟨rfl, hx⟩
                · rcases mem_addIfTrimmed _ _ _ _ h with h | ⟨rfl, hx⟩
                  · rcases mem_addIfTrimmed _ _ _ _ h with h | ⟨rfl, hx⟩
                    · rcases mem_addIfTrimmed _ _ _ _ h with h | ⟨rfl, hx⟩
                      · rcases mem_addIfTrimmed _ _ _ _ h with h | ⟨rfl, hx⟩
                        · exact Or.inl (List.mem_singleton.mp h)
                        · exact Or.inr (Or.inl ⟨"name", f.name, rfl, hx, by decide⟩)
                      · exact Or.inr (Or.inl ⟨"given_name", f.given_name, rfl, hx, by decide⟩)
                    · exact Or.inr (Or.inl ⟨"middle_name", f.middle_name, rfl, hx, by decide⟩)
                  · exact Or.inr (Or.inl ⟨"family_name", f.family_name, rfl, hx, by decide⟩)
                · exact Or.inr (Or.inl ⟨"nickname", f.nickname, rfl, hx, by decide⟩)
              · exact Or.inr (Or.inl ⟨"email", f.email, rfl, hx, by decide⟩)
            · exact Or.inr (Or.inl ⟨"phone_number", f.phone_number, rfl, hx, by decide⟩)
          · exact Or.inr (Or.inl ⟨"comment", f.comment, rfl, hx, by decide⟩)
        · exact Or.inr (Or.inl ⟨"directory", f.directory, rfl, hx, by decide⟩)
      · exact Or.inr (Or.inl ⟨"picture", f.picture, rfl, hx, by decide⟩)
    · exact Or.inr (Or.inr (Or.inl rfl))
  · exact Or.inr (Or.inr (Or.inr rfl))

theorem cp_dir_shape (f : UserFormData) :
    typeofObject (getField (cleanPayload f) "directory") = false := by
  rcases getField_cases (cleanPayload f) "directory" with h | h
  · rw [h]
    rfl
  · rcases mem_cleanPayload f _ h with h1 | ⟨k, x, h1, _, _⟩ | h1 | h1
    · exact absurd (show ("directory" : String) = "uid" from congrArg Prod.fst h1)
        (by decide)
    · have h2 : getField (cleanPayload f) "directory" = JVal.str (jsTrim x) :=
        congrArg Prod.snd h1
      rw [h2]
      rfl
    · exact absurd (show ("directory" : String) = "tags" from congrArg Prod.fst h1)
        (by decide)
    · exact absurd (show ("directory" : String) = "metadata" from congrArg Prod.fst h1)
        (by decide)

theorem cp_meta_shape (f : UserFormData) :
    typeofString (getField (cleanPayload f) "metadata") = false := by
  rcases getField_cases (cleanPayload f) "metadata" with h | h
  · rw [h]
    rfl
  · rcases mem_cleanPayload f _ h with h1 | ⟨k, x, h1, _, hk⟩ | h1 | h1
    · exact absurd (show ("metadata" : String) = "uid" from congrArg Prod.fst h1)
        (by decide)
    · exact absurd (show k = "metadata" from (congrArg Prod.fst h1).symm) hk
    · exact absurd (show ("metadata" : String) = "tags" from congrArg Prod.fst h1)
        (by decide)
    · have h2 : getField (cleanPayload f) "metadata" =
          JVal.obj (f.metadata.map (fun kv => (kv.1, JVal.str kv.2))) :=
        congrArg Prod.snd h1
      rw [h2]
      rfl

theorem dirStep_cleanPayload (f : UserFormData) :
    dirStep (cleanPayload f) = cleanPayload f :=
  dirStep_eq_self _ (by
    have h := cp_dir_shape f
    exact h)

theorem metaStep_cleanPayload (parse : String → Option JVal) (f : UserFormData) :
    metaStep parse (cleanPayload f) = cleanPayload f :=
  metaStep_eq_self parse _ (cp_meta_shape f)

theorem validateForm_none_uid (f : UserFormData) (h : validateForm f = none) :
    jsTrim f.uid ≠ "" := by
  intro hc
  simp [validateForm, hc] at h

/-! ### Characterizations of `validateForm` -/

theorem validateForm_missing_iff (f : UserFormData) :
    validateForm f = some ValidationError.missingUid ↔
      (f.uid == "" || jsTrim f.uid == "") = true := by
  unfold validateForm
  split_ifs <;> simp_all

theorem validateForm_allDigits_iff (f : UserFormData) :
    validateForm f = some ValidationError.uidAllDigits ↔
      ((f.uid == "" || jsTrim f.uid == "") = false ∧
        (f.uid.data.any (fun c => !c.isDigit)) = false) := by
  unfold validateForm
  by_cases h1 : (f.uid == "" || jsTrim f.uid == "") = true
  · rw [if_pos h1]
    simp [h1]
  · have h1' : (f.uid == "" || jsTrim f.uid == "") = false := by
      cases hv : (f.uid == "" || jsTrim f.uid == "")
      · rfl
      · exact absurd hv h1
    rw [if_neg h1]
    by_cases h2 : (f.uid.data.any fun c => !c.isDigit) = false
    · rw [if_pos (by simp [h2])]
      simp [h1', h2]
    · have h2' : (f.uid.data.any fun c => !c.isDigit) = true := by
        cases hv : (f.uid.data.any fun c => !c.isDigit)
        · exact absurd hv h2
        · rfl
      rw [if_neg (by simp [h2'])]
      constructor
      · intro h
        exfalso
        split_ifs at h <;> simp_all
      · rintro ⟨_, hc⟩
        rw [hc] at h2'
        exact absurd h2' (by simp)

theorem missing_cond_iff (f : UserFormData) :
    (f.uid == "" || jsTrim f.uid == "") = true ↔ jsTrim f.uid = "" := by
  constructor
  · intro h
    rcases (by simpa using h : f.uid = "" ∨ jsTrim f.uid = "") with h1 | h1
    · rw [h1]
      rfl
    · exact h1
  · intro h
    simp [h]

theorem all_digits_iff (l : List Char) :
    (l.any (fun c => !c.isDigit)) = false ↔ ∀ c ∈ l, c.isDigit = true := by
  constructor
  · intro h c hc
    by_contra hd
    have hd' : c.isDigit = false := by
      cases hv : c.isDigit
      · rfl
      · exact absurd hv hd
    have : l.any (fun c => !c.isDigit) = true :=
      List.any_eq_true.mpr ⟨c, hc, by simp [hd']⟩
    rw [h] at this
    exact Bool.false_ne_true this
  · intro h
    by_contra hc
    have : l.any (fun c => !c.isDigit) = true := by
      cases hv : l.any (fun c => !c.isDigit)
      · exact absurd hv hc
      · rfl
    obtain ⟨c, hcm, hcd⟩ := List.any_eq_true.mp this
    have := h c hcm
    simp [this] at hcd

theorem jsTrim_of_all_digits (s : String) (h : ∀ c ∈ s.data, c.isDigit = true) :
    jsTrim s = s :=
  jsTrim_eq_self_of_no_ws s (fun c hc => digit_not_ws c (h c hc))

/-- C2 counterexample: the claim says `validateForm` fails with `MissingUid`
iff the uid is the empty string, but the whitespace-only uid `" "` is not
empty and still fails with `MissingUid` (the code tests
`!uid || uid.trim() === ''`). -/
theorem c2_counterexample :
    validateForm { uid := " " } = some ValidationError.missingUid ∧
      (" " : String) ≠ "" :=
  ⟨rfl, by decide⟩

/-- C2 (amended): for every form, validation fails with `UidAllDigits` iff
the uid is non-empty and every character is a digit, and fails with
`MissingUid` iff the uid trims to the empty string (empty or
whitespace-only), not only when it is empty. -/
theorem c2_uid_digit_rules_amended (f : UserFormData) :
    (validateForm f = some ValidationError.uidAllDigits ↔
      f.uid ≠ "" ∧ ∀ c ∈ f.uid.data, c.isDigit = true) ∧
    (validateForm f = some ValidationError.missingUid ↔ jsTrim f.uid = "") := by
  constructor
  · rw [validateForm_allDigits_iff]
    constructor
    · rintro ⟨h1, h2⟩
      have hne : f.uid ≠ "" := by
        intro hc
        simp [hc] at h1
      exact ⟨hne, (all_digits_iff _).mp h2⟩
    · rintro ⟨h1, h2⟩
      refine ⟨?_, (all_digits_iff _).mpr h2⟩
      have htrim : jsTrim f.uid = f.uid := jsTrim_of_all_digits f.uid h2
      simp [h1, htrim]
  · rw [validateForm_missing_iff]
    exact missing_cond_iff f

/-- C2 witness: the all-digit uid `"123"` fails with `UidAllDigits`. -/
theorem c2_witness :
    validateForm { uid := "123" } = some ValidationError.uidAllDigits :=
  (c2_uid_digit_rules_amended { uid := "123" }).1.mpr ⟨by decide, by decide⟩

/-- C3 counterexample: the claim says any uid containing a whitespace
character (while non-empty and containing a non-digit) fails with
`UidHasWhitespace`, but `"a\tb"` contains the whitespace character `'\t'`,
is non-empty and contains non-digits, and passes validation entirely: the
code only tests `uid.includes(' ')`, the literal space. -/
theorem c3_counterexample :
    validateForm { uid := "a\tb" } = none ∧
    ('\t' ∈ "a\tb".data ∧ Char.isWhitespace '\t' = true) ∧
    ("a\tb" : String) ≠ "" ∧ (∃ c ∈ "a\tb".data, c.isDigit = false) :=
  ⟨rfl, ⟨by decide, by decide⟩, by decide, by decide⟩

/-- C3 (amended): for every uid that contains the space character `' '`
and passes the earlier rules (trims non-empty, contains a non-digit),
validation fails with exactly `UidHasWhitespace`; in particular `"12 3"`
reports `UidHasWhitespace`, not `UidAllDigits`, because the space is a
non-digit, so the digit rule passes first.  Only the literal space
character is detected, not other whitespace such as tab. -/
theorem c3_space_whitespace_amended :
    (∀ f : UserFormData, jsTrim f.uid ≠ "" →
      f.uid.data.any (fun c => !c.isDigit) = true →
      strIncludes f.uid " " = true →
      validateForm f = some ValidationError.uidHasWhitespace) ∧
    validateForm { uid := "12 3" } = some ValidationError.uidHasWhitespace := by
  constructor
  · intro f h1 h2 h3
    have hu : f.uid ≠ "" := by
      intro hc
      exact h1 (by rw [hc]; rfl)
    unfold validateForm
    rw [if_neg (by simp [hu, h1]), if_neg (by simp [h2]), if_pos h3]
  · rfl

/-- C3 witness: `"a b"` trims non-empty, contains non-digits and a space,
and is reported as `UidHasWhitespace`. -/
theorem c3_witness :
    validateForm { uid := "a b" } = some ValidationError.uidHasWhitespace :=
  c3_space_whitespace_amended.1 { uid := "a b" } (by decide) (by decide) (by decide)

/-- C9: when `handleImageUpload` rejects a file — its media type does not
match `image` or its size exceeds 5 MB — the form data and the image
preview are left unchanged and only the error message is set. -/
theorem c9_upload_reject_frame (file : UploadFile) (res : Except Unit String)
    (st : FormState)
    (h : strIncludes file.type "image" = false ∨ 5 * 1024 * 1024 < file.size) :
    (handleImageUpload file res st).formData = st.formData ∧
    (handleImageUpload file res st).imagePreview = st.imagePreview ∧
    ((handleImageUpload file res st).error).isSome = true := by
  by_cases ht : strIncludes file.type "image" = true
  · have hs : 5 * 1024 * 1024 < file.size := by
      rcases h with h | h
      · rw [ht] at h
        exact absurd h (by simp)
      · exact h
    rw [show handleImageUpload file res st =
        { st with error := some "Image size should be less than 5MB" } from by
      simp [handleImageUpload, ht, hs]]
    exact ⟨rfl, rfl, rfl⟩
  · have ht' : strIncludes file.type "image" = false := by
      cases hv : strIncludes file.type "image"
      · rfl
      · exact absurd hv ht
    rw [show handleImageUpload file res st =
        { st with error := some "Please select an image file" } from by
      simp [handleImageUpload, ht']]
    exact ⟨rfl, rfl, rfl⟩

/-- C9 witness: a rejected non-image file leaves the form state intact. -/
theorem c9_witness :
    (handleImageUpload ⟨"text/plain", 0⟩ (Except.error ())
        ⟨{ uid := "x" }, none, none⟩).formData = { uid := "x" } ∧
    (handleImageUpload ⟨"text/plain", 0⟩ (Except.error ())
        ⟨{ uid := "x" }, none, none⟩).imagePreview = none ∧
    ((handleImageUpload ⟨"text/plain", 0⟩ (Except.error ())
        ⟨{ uid := "x" }, none, none⟩).error).isSome = true :=
  c9_upload_reject_frame ⟨"text/plain", 0⟩ (Except.error ())
    ⟨{ uid := "x" }, none, none⟩ (Or.inl rfl)

/-- C10: `getAllUsers` returns the empty list when the envelope's `data`
field is absent (`undefined`), `null`, or otherwise falsy, and otherwise
returns exactly the `data` sequence; `start`, `endIdx` and `count` are
universally quantified, so the result never depends on them. -/
theorem c10_getAllUsers_unwrap :
    (∀ s e c, getAllUsers ⟨JVal.undefined, s, e, c⟩ = JVal.arr []) ∧
    (∀ s e c, getAllUsers ⟨JVal.null, s, e, c⟩ = JVal.arr []) ∧
    (∀ s e c, getAllUsers ⟨JVal.bool false, s, e, c⟩ = JVal.arr []) ∧
    (∀ s e c, getAllUsers ⟨JVal.num 0, s, e, c⟩ = JVal.arr []) ∧
    (∀ s e c, getAllUsers ⟨JVal.str "", s, e, c⟩ = JVal.arr []) ∧
    (∀ xs s e c, getAllUsers ⟨JVal.arr xs, s, e, c⟩ = JVal.arr xs) :=
  ⟨fun _ _ _ => rfl, fun _ _ _ => rfl, fun _ _ _ => rfl, fun _ _ _ => rfl,
    fun _ _ _ => rfl, fun _ _ _ _ => rfl⟩

/-! ### Branch lemmas for the metadata and picture steps -/

theorem metaStep_parse_some (parse : String → Option JVal) (p : Payload) (s : String)
    (j : JVal) (h : getField p "metadata" = JVal.str s) (hne : s ≠ "")
    (hp : parse s = some j) : metaStep parse p = setField p "metadata" j := by
  simp [metaStep, h, hne, hp]

theorem metaStep_parse_none (parse : String → Option JVal) (p : Payload) (s : String)
    (h : getField p "metadata" = JVal.str s) (hne : s ≠ "")
    (hp : parse s = none) : metaStep parse p = delField p "metadata" := by
  simp [metaStep, h, hne, hp]

theorem picStep_keep_data (p : Payload) (s : String)
    (h : getField p "picture" = JVal.str s) (hne : s ≠ "")
    (hd : strStartsWith s "data:image" = true) : picStep p = p := by
  simp [picStep, h, hne, hd]

theorem picStep_keep_http (p : Payload) (s : String)
    (h : getField p "picture" = JVal.str s) (hne : s ≠ "")
    (hh : strStartsWith s "http" = true) : picStep p = p := by
  by_cases hd : strStartsWith s "data:image" = true
  · simp [picStep, h, hne, hd]
  · simp [picStep, h, hne, hd, hh]

theorem picStep_drop (p : Payload) (s : String)
    (h : getField p "picture" = JVal.str s) (hne : s ≠ "")
    (hd : strStartsWith s "data:image" = false)
    (hh : strStartsWith s "http" = false) : picStep p = delField p "picture" := by
  simp [picStep, h, hne, hd, hh]

/-- C1 counterexample: the claim says every write operation reduces a
structured directory to its name string, but `updateUser` transmits the
structured object `{id: 1, name: "eng"}` unchanged (and so does
`patchUser`, whose body is identical): the directory of the transmitted
payload is an object, not a string. -/
theorem c1_counterexample :
    updateUser [("directory", JVal.obj [("id", JVal.num 1), ("name", JVal.str "eng")])] =
      [("directory", JVal.obj [("id", JVal.num 1), ("name", JVal.str "eng")])] ∧
    typeofString (getField
      (updateUser [("directory", JVal.obj [("id", JVal.num 1), ("name", JVal.str "eng")])])
      "directory") = false ∧
    typeofObject (getField
      (updateUser [("directory", JVal.obj [("id", JVal.num 1), ("name", JVal.str "eng")])])
      "directory") = true :=
  ⟨rfl, rfl, rfl⟩

/-- C1 (amended): only `createUser` reduces a structured directory (an
object whose `name` is a non-empty string) to its name string before
transmission; `updateUser` and `patchUser` leave a structured directory
unchanged and instead wrap a non-empty plain-string directory into a
structured `{ name }` object. -/
theorem c1_directory_reduction_amended :
    (∀ (parse : String → Option JVal) (p : Payload) (fields : List (String × JVal))
        (s : String),
      getField p "directory" = JVal.obj fields →
      getProp (JVal.obj fields) "name" = JVal.str s → s ≠ "" →
      getField (createUser parse p) "directory" = JVal.str s) ∧
    (∀ (p : Payload) (fields : List (String × JVal)),
      getField p "directory" = JVal.obj fields → updateUser p = p) ∧
    (∀ (p : Payload) (fields : List (String × JVal)),
      getField p "directory" = JVal.obj fields → patchUser p = p) ∧
    (∀ (p : Payload) (s : String), getField p "directory" = JVal.str s → s ≠ "" →
      updateUser p = setField p "directory" (JVal.obj [("name", JVal.str s)])) ∧
    (∀ (p : Payload) (s : String), getField p "directory" = JVal.str s → s ≠ "" →
      patchUser p = setField p "directory" (JVal.obj [("name", JVal.str s)])) := by
  refine ⟨?_, ?_, ?_, ?_, ?_⟩
  · intro parse p fields s hdir hname hs
    have h1 : dirStep p = setField p "directory" (JVal.str s) := by
      unfold dirStep
      rw [hdir, hname]
      simp [truthy, typeofObject]
    have h2 : getField (metaStep parse (dirStep p)) "directory" = JVal.str s := by
      rw [getField_metaStep_ne parse (dirStep p) "directory" (by decide), h1,
        getField_setField_self]
    have h3 : getField (picStep (metaStep parse (dirStep p))) "directory" = JVal.str s := by
      rw [getField_picStep_ne _ "directory" (by decide), h2]
    show getField (removeEmptyFields (picStep (metaStep parse (dirStep p)))) "directory" =
      JVal.str s
    rw [getField_removeEmptyFields_keep _ _ (by rw [h3]; simpa [isEmptyMarker] using hs),
      h3]
  · intro p fields h
    unfold updateUser
    rw [h]
  · intro p fields h
    unfold patchUser
    rw [h]
  · intro p s h hs
    unfold updateUser
    rw [h]
    simp [hs]
  · intro p s h hs
    unfold patchUser
    rw [h]
    simp [hs]

/-- C1 witness: `createUser` reduces `{id: 1, name: "eng"}` to `"eng"`. -/
theorem c1_witness :
    getField (createUser jsonParseLit
      [("directory", JVal.obj [("id", JVal.num 1), ("name", JVal.str "eng")])])
      "directory" = JVal.str "eng" :=
  c1_directory_reduction_amended.1 jsonParseLit
    [("directory", JVal.obj [("id", JVal.num 1), ("name", JVal.str "eng")])]
    [("id", JVal.num 1), ("name", JVal.str "eng")] "eng" rfl rfl (by decide)

/-- C5: in a `createUser` payload a string picture starting with
`data:image` or with `http` passes through unchanged, and any other
non-empty string picture is dropped from the payload; in particular
`ftp://x` is omitted while `https://x.png` and
`data:image/png;base64,AAA` are sent unchanged. -/
theorem c5_picture_normalization :
    (∀ (parse : String → Option JVal) (p : Payload) (s : String),
      getField p "picture" = JVal.str s →
      ((strStartsWith s "data:image" = true →
          getField (createUser parse p) "picture" = JVal.str s) ∧
        (strStartsWith s "http" = true →
          getField (createUser parse p) "picture" = JVal.str s) ∧
        (s ≠ "" → strStartsWith s "data:image" = false →
          strStartsWith s "http" = false →
          hasKey (createUser parse p) "picture" = false))) ∧
    hasKey (createUser jsonParseLit [("picture", JVal.str "ftp://x")]) "picture" = false ∧
    createUser jsonParseLit [("picture", JVal.str "https://x.png")] =
      [("picture", JVal.str "https://x.png")] ∧
    createUser jsonParseLit [("picture", JVal.str "data:image/png;base64,AAA")] =
      [("picture", JVal.str "data:image/png;base64,AAA")] := by
  refine ⟨?_, rfl, rfl, rfl⟩
  intro parse p s hpic
  have h2 : getField (metaStep parse (dirStep p)) "picture" = JVal.str s := by
    rw [getField_metaStep_ne parse _ "picture" (by decide),
      getField_dirStep_ne p "picture" (by decide), hpic]
  refine ⟨?_, ?_, ?_⟩
  · intro hd
    have hne : s ≠ "" := by
      intro hc
      subst hc
      exact absurd hd (by decide)
    have h3 : picStep (metaStep parse (dirStep p)) = metaStep parse (dirStep p) :=
      picStep_keep_data _ s h2 hne hd
    show getField (removeEmptyFields (picStep (metaStep parse (dirStep p)))) "picture" =
      JVal.str s
    rw [h3, getField_removeEmptyFields_keep _ _
      (by rw [h2]; simpa [isEmptyMarker] using hne), h2]
  · intro hh
    have hne : s ≠ "" := by
      intro hc
      subst hc
      exact absurd hh (by decide)
    have h3 : picStep (metaStep parse (dirStep p)) = metaStep parse (dirStep p) :=
      picStep_keep_http _ s h2 hne hh
    show getField (removeEmptyFields (picStep (metaStep parse (dirStep p)))) "picture" =
      JVal.str s
    rw [h3, getField_removeEmptyFields_keep _ _
      (by rw [h2]; simpa [isEmptyMarker] using hne), h2]
  · intro hne hd hh
    have h3 : picStep (metaStep parse (dirStep p)) =
        delField (metaStep parse (dirStep p)) "picture" :=
      picStep_drop _ s h2 hne hd hh
    show hasKey (removeEmptyFields (picStep (metaStep parse (dirStep p)))) "picture" = false
    rw [h3]
    exact hasKey_removeEmptyFields_false _ _ (hasKey_delField_self _ _)

/-- C5 witness: `ftp://y` is dropped by the general rule. -/
theorem c5_witness :
    hasKey (createUser jsonParseLit [("picture", JVal.str "ftp://y")]) "picture" = false :=
  (c5_picture_normalization.1 jsonParseLit [("picture", JVal.str "ftp://y")] "ftp://y"
    rfl).2.2 (by decide) (by decide) (by decide)

/-- C6 counterexample: the claim says metadata is included only when it has
at least one key, but a metadata string parsing to the empty object
(`JSON.parse` of the two-character object literal) is transmitted as an
empty, zero-key metadata object by `createUser`, which applies no key-count
check. -/
theorem c6_counterexample :
    getField (createUser jsonParseLit
      [("uid", JVal.str "a1"), ("metadata", JVal.str "\x7b\x7d")]) "metadata" =
      JVal.obj [] ∧
    hasKey (createUser jsonParseLit
      [("uid", JVal.str "a1"), ("metadata", JVal.str "\x7b\x7d")]) "metadata" = true :=
  ⟨rfl, rfl⟩

/-- C6 (amended): when a `createUser` payload's metadata is a non-empty
string, a successful parse replaces it by the parsed value (which the
empty-field sweep then keeps whenever it is not `''`/`null`), with no
minimum-key-count check — a string parsing to the empty object is
transmitted as an empty object; a failed parse omits the metadata key
silently.  The at-least-one-key rule lives in the form layer
(`handleSubmit`), which sends metadata only as a non-empty object. -/
theorem c6_metadata_parse_amended :
    (∀ (parse : String → Option JVal) (p : Payload) (s : String) (j : JVal),
      getField p "metadata" = JVal.str s → s ≠ "" →
      parse s = some j → isEmptyMarker j = false →
      getField (createUser parse p) "metadata" = j) ∧
    (∀ (parse : String → Option JVal) (p : Payload) (s : String),
      getField p "metadata" = JVal.str s → s ≠ "" →
      parse s = none → hasKey (createUser parse p) "metadata" = false) ∧
    getField (createUser jsonParseLit
      [("uid", JVal.str "a1"), ("metadata", JVal.str "\x7b\x7d")]) "metadata" =
      JVal.obj [] := by
  refine ⟨?_, ?_, rfl⟩
  · intro parse p s j hm hne hp hj
    have h1 : getField (dirStep p) "metadata" = JVal.str s := by
      rw [getField_dirStep_ne p "metadata" (by decide), hm]
    have h2 : metaStep parse (dirStep p) = setField (dirStep p) "metadata" j :=
      metaStep_parse_some parse _ s j h1 hne hp
    have h3 : getField (picStep (metaStep parse (dirStep p))) "metadata" = j := by
      rw [getField_picStep_ne _ "metadata" (by decide), h2, getField_setField_self]
    show getField (removeEmptyFields (picStep (metaStep parse (dirStep p)))) "metadata" = j
    rw [getField_removeEmptyFields_keep _ _ (by rw [h3]; exact hj), h3]
  · intro parse p s hm hne hp
    have h1 : getField (dirStep p) "metadata" = JVal.str s := by
      rw [getField_dirStep_ne p "metadata" (by decide), hm]
    have h2 : metaStep parse (dirStep p) = delField (dirStep p) "metadata" :=
      metaStep_parse_none parse _ s h1 hne hp
    have h3 : hasKey (metaStep parse (dirStep p)) "metadata" = false := by
      rw [h2]
      exact hasKey_delField_self _ _
    show hasKey (removeEmptyFields (picStep (metaStep parse (dirStep p)))) "metadata" = false
    exact hasKey_removeEmptyFields_false _ _ (hasKey_picStep_false _ _ h3)

/-- C6 witness: the empty-object literal parses and is transmitted. -/
theorem c6_witness :
    getField (createUser jsonParseLit [("metadata", JVal.str "\x7b\x7d")]) "metadata" =
      JVal.obj [] :=
  c6_metadata_parse_amended.1 jsonParseLit [("metadata", JVal.str "\x7b\x7d")]
    "\x7b\x7d" (JVal.obj []) rfl (by decide) rfl rfl

/-- C7: a form failing client-side validation is blocked — `handleSubmit`
returns the error and never reaches the network call; submitting
`{uid: "abc", email: "bad"}` is rejected with `InvalidEmail`; and for a
form whose uid passes the first three rules, a present non-empty email
fails validation (with `InvalidEmail`) exactly when it contains no `@`. -/
theorem c7_validation_blocks_submission :
    (∀ (f : UserFormData) (e : ValidationError),
      validateForm f = some e → handleSubmit f = Except.error e) ∧
    handleSubmit { uid := "abc", email := "bad" } =
      Except.error ValidationError.invalidEmail ∧
    (∀ f : UserFormData, jsTrim f.uid ≠ "" →
      f.uid.data.any (fun c => !c.isDigit) = true →
      strIncludes f.uid " " = false →
      f.email ≠ "" →
      (validateForm f = some ValidationError.invalidEmail ↔
        strIncludes f.email "@" = false)) := by
  refine ⟨?_, rfl, ?_⟩
  · intro f e h
    simp [handleSubmit, h]
  · intro f h1 h2 h3 h4
    have hu : f.uid ≠ "" := by
      intro hc
      exact h1 (by rw [hc]; rfl)
    unfold validateForm
    rw [if_neg (by simp [hu, h1]), if_neg (by simp [h2]), if_neg (by simp [h3])]
    by_cases h5 : strIncludes f.email "@" = true
    · rw [if_neg (by simp [h4, h5])]
      simp [h5]
    · have h5' : strIncludes f.email "@" = false := by
        cases hv : strIncludes f.email "@"
        · rfl
        · exact absurd hv h5
      rw [if_pos (by simp [h4, h5'])]
      simp [h5']

/-- C7 witness: a non-empty email without `@` is rejected as
`InvalidEmail` when the uid rules pass. -/
theorem c7_witness :
    validateForm { uid := "x1", email := "nope" } = some ValidationError.invalidEmail :=
  (c7_validation_blocks_submission.2.2 { uid := "x1", email := "nope" }
    (by decide) (by decide) (by decide) (by decide)).mpr (by decide)

/-! ### The search filter against the spec predicate -/

theorem userMatches_iff_spec (q : String) (u : ListedUser) :
    userMatches q u = true ↔ specMatches q u := by
  cases hn : u.name <;> cases he : u.email <;>
    simp [userMatches, specMatches, substrOf, hn, he, strIncludes_iff, or_assoc]

theorem userMatches_empty (u : ListedUser) : userMatches "" u = true := by
  have h0 : jsToLower "" = "" := rfl
  simp [userMatches, h0, strIncludes_empty_right]

/-- C8: the search filter keeps exactly the users for which the lowercase
query occurs as a substring of the lowercased `uid`, or of the lowercased
`name` when present, or of the lowercased `email` when present (absent
optional fields never match); the empty query keeps every user; and on
`[{uid: "john_doe", email: "john@x.com"}, {uid: "jane"}]` the query
`"john"` returns exactly the `john_doe` user. -/
theorem c8_search_filter :
    (∀ (users : List ListedUser) (q : String) (u : ListedUser),
      u ∈ filteredUsers users q ↔ u ∈ users ∧ specMatches q u) ∧
    (∀ users : List ListedUser, filteredUsers users "" = users) ∧
    filteredUsers [⟨"john_doe", none, some "john@x.com"⟩, ⟨"jane", none, none⟩] "john" =
      [⟨"john_doe", none, some "john@x.com"⟩] := by
  refine ⟨?_, ?_, rfl⟩
  · intro users q u
    rw [filteredUsers, List.mem_filter, userMatches_iff_spec]
  · intro users
    rw [filteredUsers]
    exact List.filter_eq_self.mpr (fun u _ => userMatches_empty u)

/-- C4: for a form that passes validation, the transmitted payload —
the form's cleaning in `handleSubmit` followed by `createUser`'s
normalization and empty-field sweep — never contains a string-valued field
whose value trims to the empty string: every free-text field is sent
trimmed, and a field that trims to empty is omitted entirely. -/
theorem c4_no_empty_string_fields (parse : String → Option JVal) (f : UserFormData)
    (k : String) (s : String) (hv : validateForm f = none)
    (hmem : (k, JVal.str s) ∈ createUser parse (cleanPayload f)) :
    jsTrim s ≠ "" := by
  have hcp : (k, JVal.str s) ∈ cleanPayload f := by
    have h1 := mem_removeEmptyFields _ _ hmem
    rw [dirStep_cleanPayload f, metaStep_cleanPayload parse f] at h1
    exact mem_picStep _ _ h1
  rcases mem_cleanPayload f _ hcp with h1 | ⟨k', x, h1, hx, _⟩ | h1 | h1
  · have hs : s = jsTrim f.uid := by simpa using congrArg Prod.snd h1
    rw [hs]
    exact jsTrim_idem_ne _ (validateForm_none_uid f hv)
  · have hs : s = jsTrim x := by simpa using congrArg Prod.snd h1
    rw [hs]
    exact jsTrim_idem_ne _ hx
  · have h2 := congrArg Prod.snd h1
    simp at h2
  · have h2 := congrArg Prod.snd h1
    simp at h2

/-- C4 witness: the minimal valid form sends `uid = "a1"`, whose trimmed
value is non-empty. -/
theorem c4_witness : jsTrim "a1" ≠ "" :=
  c4_no_empty_string_fields jsonParseLit { uid := "a1" } "uid" "a1" rfl
    (show ("uid", JVal.str "a1") ∈ [("uid", JVal.str "a1")] from
      List.mem_singleton_self _)
